import Mathlib

/-!
Shallow embedding of `src/vision/_s3_utils.py` (module `boja/vision/_s3_utils`).

The module is a set of stateless helpers over an S3-compatible object store.
Remote-store interactions are modelled explicitly:

* the result of a prefix listing (`bucket.objects.filter(Prefix=dir_name)`)
  is passed in as a `List String` of keys, in the store's native order;
* the outcome of a `head-object` metadata load (`s3.Object(..).load()`) is a
  `LoadOutcome`: either success or a client error carrying its error code;
* the local filesystem check `os.path.isfile(join(dest_dir, basename(k)))`
  is a boolean predicate on basenames;
* exceptions are `Except`: Python `raise` becomes `Except.error`.

Machine integers do not arise: Python integers are unbounded, so leading
numeric ranks are `Nat`.
-/

/-- Value of a list of decimal digit characters, as Python `int` computes it
on a digit string (so `int("07") = 7`). -/
def digitsToNat (l : List Char) : Nat :=
  l.foldl (fun acc c => acc * 10 + (c.toNat - ('0').toNat)) 0

/-- Characters after the last `'/'` of the list (the whole list when no `'/'`
occurs).  This is the common semantics of both `os.path.basename(s)` (POSIX)
and `s.split("/")[-1]`, the two basename idioms used in the source. -/
def basenameChars (cs : List Char) : List Char :=
  cs.foldl (fun acc c => if c = '/' then [] else acc.concat c) []

/-- Python `os.path.basename` / `s.split("/")[-1]` on a key string. -/
def basename (s : String) : String :=
  ⟨basenameChars s.data⟩

/-- Python `"/".join([a, b])`. -/
def joinSlash (a b : String) : String :=
  a ++ "/" ++ b

/-- Python substring containment `needle in hay` on character lists
(`True` for the empty needle). -/
def hasSubstr (needle : List Char) : List Char → Bool
  | [] => needle.isPrefixOf []
  | c :: t => needle.isPrefixOf (c :: t) || hasSubstr needle t

/-- Python `str.lower()`, character-wise (same mapping as `String.toLower`,
written over the character list so that it reduces in the kernel). -/
def strToLower (s : String) : String :=
  ⟨s.data.map Char.toLower⟩

/-- Greedy match of the regular expression `[0-9]+` anchored at the start of
the input, as `re.match("[0-9]+", s)` performs it: `none` when the first
character is not a digit, otherwise the longest leading digit run together
with the rest of the input. -/
def matchDigitsPlus : List Char → Option (List Char × List Char)
  | [] => none
  | c :: cs =>
    if c.isDigit then
      match matchDigitsPlus cs with
      | some (d, r) => some (c :: d, r)
      | none => some ([c], cs)
    else none

/-- Source `_int_string_sort(file_name)`: value of the greedy `re.match("[0-9]+", ...)`
on the basename, `0` when there is no match. -/
def _int_string_sort (file_name : String) : Nat :=
  match matchDigitsPlus (basename file_name).data with
  | none => 0
  | some (d, _) => digitsToNat d

/-- Outcome of loading object metadata (`s3.Object(bucket, key).load()`):
either the object is there, or the client raises `ClientError` with a code. -/
inductive LoadOutcome where
  | success : LoadOutcome
  | clientError (code : String) : LoadOutcome
deriving DecidableEq

/-- Source `s3_file_exists(bucket_name, s3_object_path)` as a function of the
metadata-load outcome for that `(bucket, key)`.  A `"404"` client error is
converted to `false`; any other client error is re-raised (`Except.error`);
a successful load yields `true`. -/
def s3_file_exists (outcome : LoadOutcome) : Except String Bool :=
  match outcome with
  | .success => .ok true
  | .clientError code => if code = "404" then .ok false else .error code

/-- Source `s3_get_object_names_from_dir(bucket_name, dir_name, file_type)`.
`listing` is the store's listing under the `dir_name` path, in native
order, as returned by `bucket.objects.filter(Prefix=dir_name)`.  When a
`file_type` is given, keys are kept when their lowercase form ends with the
filter's lowercase form (`object_name.lower().endswith(file_type.lower())`). -/
def s3_get_object_names_from_dir (listing : List String) (file_type : Option String) :
    List String :=
  match file_type with
  | none => listing
  | some ft =>
    listing.filter (fun object_name =>
      List.isSuffixOf (strToLower ft).data (strToLower object_name).data)

/-- Source `s3_download_files(bucket_name, s3_object_paths, destination_dir)`:
the keys for which `download_file` is requested.  `isLocalFile b` models
`os.path.isfile(os.path.join(destination_dir, b))`: keys whose basename is
already present locally are excluded before any transfer starts.  A per-file
`ClientError` during a transfer is printed and swallowed, so it does not
change which requests are made. -/
def s3_download_files (isLocalFile : String → Bool) (s3_object_paths : List String) :
    List String :=
  s3_object_paths.filter (fun s3_object_path => ! isLocalFile (basename s3_object_path))

/-- Stable insertion of `x` in front of the first element whose key is not
larger, used to realise a descending stable sort: `x` stands earlier than
every element of the list in the original order, so on equal keys `x` goes
first. -/
def insortDesc (key : α → Nat) (x : α) : List α → List α
  | [] => [x]
  | b :: bs => if key b ≤ key x then x :: b :: bs else b :: insortDesc key x bs

/-- Python `sorted(xs, key=key, reverse=True)`.  CPython's `sorted` is
documented to be stable, also with `reverse=True`: elements with equal keys
keep their original relative order.  A stable descending sort is extensionally
unique, and this insertion sort realises it. -/
def pySortedDesc (key : α → Nat) : List α → List α
  | [] => []
  | x :: xs => insortDesc key x (pySortedDesc key xs)

/-- Candidate basenames of `s3_download_highest_numbered_file`: basenames of
the (suffix-filtered) listing, optionally filtered by case-insensitive
substring containment of `filter_keyword`
(`filter_keyword.lower() in file_name.lower()`). -/
def hnCandidates (listing : List String) (file_type filter_keyword : Option String) :
    List String :=
  let object_names := s3_get_object_names_from_dir listing file_type
  let file_names := object_names.map basename
  match filter_keyword with
  | none => file_names
  | some kw => file_names.filter (fun file_name =>
      hasSubstr (strToLower kw).data (strToLower file_name).data)

/-- Basename selected by `s3_download_highest_numbered_file`:
`sorted(file_names, key=_int_string_sort, reverse=True)[0]`, as an `Option`
(`none` would be the `IndexError` of indexing an empty list). -/
def selectedBasename (listing : List String) (file_type filter_keyword : Option String) :
    Option String :=
  (pySortedDesc _int_string_sort (hnCandidates listing file_type filter_keyword)).head?

/-- Keys that `s3_download_highest_numbered_file` passes to `s3_download_files`.
`some []` is the early `return` when no candidate remains (nothing is
downloaded, no exception); `none` would be an uncaught exception — the guard
makes it unreachable.  The key handed over is rebuilt as
`"/".join([s3_dir_path, highest_numbered_file])` from the basename alone. -/
def s3_download_highest_numbered_file_requests (listing : List String)
    (file_type filter_keyword : Option String) (s3_dir_path : String) :
    Option (List String) :=
  let file_names := hnCandidates listing file_type filter_keyword
  if file_names.length = 0 then some []
  else
    match (pySortedDesc _int_string_sort file_names).head? with
    | some highest_numbered_file => some [joinSlash s3_dir_path highest_numbered_file]
    | none => none

/-- Source `s3_download_highest_numbered_file(...)`: the keys actually
downloaded, i.e. the requested keys after `s3_download_files` drops the ones
whose basename is already present locally. -/
def s3_download_highest_numbered_file (listing : List String)
    (file_type filter_keyword : Option String) (s3_dir_path : String)
    (isLocalFile : String → Bool) : Option (List String) :=
  match s3_download_highest_numbered_file_requests listing file_type filter_keyword
      s3_dir_path with
  | none => none
  | some keys => some (s3_download_files isLocalFile keys)

/-- Head-object outcome for `key` against a store holding the keys `store`,
with `inj` injecting client errors (faults such as access denied or
throttling).  Without an injected fault, the store answers success when the
key is present and a `"404"` client error when it is not. -/
def headFor (inj : String → Option String) (store : List String) (key : String) :
    LoadOutcome :=
  match inj key with
  | some code => .clientError code
  | none => if key ∈ store then .success else .clientError "404"

/-- Observable state threaded through the `s3_upload_files` loop: the remote
keys present, the keys for which `upload_file` was called, the printed
"already exists" notices, and the printed (swallowed) client-error codes. -/
structure UploadState where
  store : List String
  uploaded : List String
  notices : List String
  errors : List String
deriving DecidableEq

/-- One iteration of the `s3_upload_files` loop for local file `file_to_send`.
The destination key is `"/".join([s3_destination_object_dir, basename(file)])`.
The whole body sits in a `try/except ClientError` that prints the error and
continues, so an `Except.error` from `s3_file_exists` — and an upload fault,
modelled by `upErr` — only appends to `errors`.  An existing object is
skipped, with a notice exactly when `notify_if_exists` is set (the source
prints the destination directory in that notice). -/
def uploadStep (inj upErr : String → Option String) (s3_destination_object_dir : String)
    (notify_if_exists : Bool) (st : UploadState) (file_to_send : String) : UploadState :=
  let key := joinSlash s3_destination_object_dir (basename file_to_send)
  match s3_file_exists (headFor inj st.store key) with
  | .error code => { st with errors := st.errors ++ [code] }
  | .ok true =>
    if notify_if_exists then
      { st with notices := st.notices ++ [s3_destination_object_dir] }
    else st
  | .ok false =>
    match upErr file_to_send with
    | some code => { st with errors := st.errors ++ [code] }
    | none => { st with store := st.store ++ [key], uploaded := st.uploaded ++ [key] }

/-- Source `s3_upload_files(bucket_name, files_to_send, s3_destination_object_dir,
notify_if_exists)`: left fold of the loop body over the files, starting from
the given remote store with no calls yet made. -/
def s3_upload_files (inj upErr : String → Option String) (store : List String)
    (files_to_send : List String) (s3_destination_object_dir : String)
    (notify_if_exists : Bool) : UploadState :=
  files_to_send.foldl (uploadStep inj upErr s3_destination_object_dir notify_if_exists)
    ⟨store, [], [], []⟩

/-- Fault-free oracle: no injected client errors. -/
def noFault : String → Option String := fun _ => none

/-- Oracle that makes every metadata load fail with client error `"403"`
(access denied), used to exercise the non-404 error path concretely. -/
def inj403 : String → Option String := fun _ => some "403"

/-- Run captured by `matchDigitsPlus`, the empty list when there is no match
(convenience accessor for stating lemmas about the greedy match). -/
def mdpRun (cs : List Char) : List Char :=
  match matchDigitsPlus cs with
  | none => []
  | some p => p.1

/-- Modelled from the spec: the leading-integer rank, "the integer formed by
the longest run of digits at the start of a filename", `0` when the basename
has no leading digits.  Stated with `List.takeWhile`, independently of the
source's regular-expression match, to compare the two. -/
def specLeadingRank (file_name : String) : Nat :=
  digitsToNat ((basename file_name).data.takeWhile Char.isDigit)

/-! ### Helper lemmas -/

/-- The run captured by the greedy anchored `[0-9]+` match is exactly the
longest leading digit run of the input. -/
theorem mdpRun_eq_takeWhile (cs : List Char) :
    mdpRun cs = cs.takeWhile Char.isDigit := by
  induction cs with
  | nil => rfl
  | cons c cs ih =>
    by_cases hc : c.isDigit
    · cases h : matchDigitsPlus cs with
      | none =>
        have ht : cs.takeWhile Char.isDigit = [] := by rw [← ih, mdpRun, h]
        simp [mdpRun, matchDigitsPlus, hc, h, List.takeWhile_cons, ht]
      | some p =>
        have ht : cs.takeWhile Char.isDigit = p.1 := by rw [← ih, mdpRun, h]
        simp [mdpRun, matchDigitsPlus, hc, h, List.takeWhile_cons, ht]
    · simp [mdpRun, matchDigitsPlus, hc, List.takeWhile_cons]

/-- `_int_string_sort` is the digit value of the greedy match's run. -/
theorem int_string_sort_eq_mdpRun (s : String) :
    _int_string_sort s = digitsToNat (mdpRun (basename s).data) := by
  cases h : matchDigitsPlus (basename s).data with
  | none => simp [_int_string_sort, mdpRun, h, digitsToNat]
  | some p => simp [_int_string_sort, mdpRun, h]

/-! ### Claims -/

/-- C2: `s3_file_exists` returns `false` exactly on a `"404"` client error,
returns `true` when the metadata load succeeds, re-raises unchanged any
client error with another code, and an error result only ever arises from
such a non-404 client error (never converted to a boolean). -/
theorem s3_file_exists_error_contract (outcome : LoadOutcome) :
    (s3_file_exists outcome = .ok false ↔ outcome = .clientError "404")
    ∧ (outcome = .success → s3_file_exists outcome = .ok true)
    ∧ (∀ code, code ≠ "404" → outcome = .clientError code →
        s3_file_exists outcome = .error code)
    ∧ (∀ code, s3_file_exists outcome = .error code →
        outcome = .clientError code ∧ code ≠ "404") := by
  cases outcome with
  | success =>
    refine ⟨by simp [s3_file_exists], fun _ => rfl, ?_, ?_⟩
    · intro code hcode he
      exact nomatch he
    · intro code he
      simp [s3_file_exists] at he
  | clientError c =>
    by_cases hc : c = "404"
    · subst hc
      refine ⟨by simp [s3_file_exists], by simp, ?_, ?_⟩
      · intro code hcode he
        injection he with h404
        exact absurd h404.symm hcode
      · intro code he
        simp [s3_file_exists] at he
    · refine ⟨by simp [s3_file_exists, hc], by simp, ?_, ?_⟩
      · intro code hcode he
        cases he
        simp [s3_file_exists, hc]
      · intro code he
        simp only [s3_file_exists, if_neg hc, Except.error.injEq] at he
        subst he
        exact ⟨rfl, hc⟩

/-- Witness for C2 at a concrete non-404 error code. -/
theorem s3_file_exists_error_contract_witness :
    s3_file_exists (.clientError "403") = .error "403" :=
  (s3_file_exists_error_contract (.clientError "403")).2.2.1 "403" (by decide) rfl

/-- C5: with a suffix filter, `s3_get_object_names_from_dir` returns exactly
the listed keys whose lowercase form ends with the filter's lowercase form,
keeping the store's native listing order (a sublist of the listing); with no
filter it returns the listing unchanged. -/
theorem s3_get_object_names_from_dir_contract (listing : List String) (ft : String) :
    (∀ k, k ∈ s3_get_object_names_from_dir listing (some ft) ↔
        k ∈ listing ∧
          List.isSuffixOf (strToLower ft).data (strToLower k).data = true)
    ∧ (s3_get_object_names_from_dir listing (some ft)).Sublist listing
    ∧ s3_get_object_names_from_dir listing none = listing := by
  refine ⟨fun k => ?_, List.filter_sublist _, rfl⟩
  simp [s3_get_object_names_from_dir, List.mem_filter]

/-- Witness for C5 on a concrete listing: the `.JSON` key is kept
(case-insensitively), the `.txt` key is dropped. -/
theorem s3_get_object_names_from_dir_contract_witness :
    "logs/a.JSON" ∈ s3_get_object_names_from_dir ["logs/a.JSON", "logs/b.txt"]
      (some ".json")
    ∧ "logs/b.txt" ∉ s3_get_object_names_from_dir ["logs/a.JSON", "logs/b.txt"]
      (some ".json") :=
  ⟨((s3_get_object_names_from_dir_contract ["logs/a.JSON", "logs/b.txt"] ".json").1
      "logs/a.JSON").mpr ⟨by decide, by decide⟩,
   fun h => absurd
     (((s3_get_object_names_from_dir_contract ["logs/a.JSON", "logs/b.txt"] ".json").1
        "logs/b.txt").mp h).2 (by decide)⟩

/-- C4: `s3_download_files` requests exactly the keys whose basename is not
already a local file in the destination — the exclusion happens before any
transfer, the surviving keys keep their order — and when every requested
key's basename is already present locally, no download request is made. -/
theorem s3_download_files_contract (isLocalFile : String → Bool) (keys : List String) :
    (∀ k, k ∈ s3_download_files isLocalFile keys ↔
        k ∈ keys ∧ isLocalFile (basename k) = false)
    ∧ (s3_download_files isLocalFile keys).Sublist keys
    ∧ ((∀ k ∈ keys, isLocalFile (basename k) = true) →
        s3_download_files isLocalFile keys = []) := by
  refine ⟨fun k => ?_, List.filter_sublist _, fun h => ?_⟩
  · simp [s3_download_files, List.mem_filter]
  · rw [s3_download_files, List.filter_eq_nil_iff]
    intro a ha
    simp [h a ha]

/-- Witness for C4: with `a.json` already present locally, the download of
key `logs/a.json` makes zero requests. -/
theorem s3_download_files_contract_witness :
    s3_download_files (fun b => b == "a.json") ["logs/a.json"] = [] :=
  (s3_download_files_contract (fun b => b == "a.json") ["logs/a.json"]).2.2
    (by decide)

/-- C7: when no candidate remains after the suffix and keyword filters,
`s3_download_highest_numbered_file` returns normally having downloaded
nothing: the result is `some []` (no request, no exception). -/
theorem s3_download_highest_numbered_file_empty_noop (listing : List String)
    (file_type filter_keyword : Option String) (s3_dir_path : String)
    (isLocalFile : String → Bool)
    (h : hnCandidates listing file_type filter_keyword = []) :
    s3_download_highest_numbered_file listing file_type filter_keyword s3_dir_path
      isLocalFile = some [] := by
  simp [s3_download_highest_numbered_file, s3_download_highest_numbered_file_requests,
    h, s3_download_files]

/-- Witness for C7: a listing whose only key fails the suffix filter. -/
theorem s3_download_highest_numbered_file_empty_noop_witness :
    s3_download_highest_numbered_file ["a.txt"] (some ".json") none "d"
      (fun _ => false) = some [] :=
  s3_download_highest_numbered_file_empty_noop ["a.txt"] (some ".json") none "d"
    (fun _ => false) (by decide)

/-- C8 (amended): `_int_string_sort` equals the value of the longest leading
digit run of the basename (the greedy anchored `[0-9]+` match), `0` when the
basename has no leading digit; `_int_string_sort "07_epoch.ckpt" = 7`; and a
file with no leading digit ranks strictly below any file whose leading
integer value is positive (it can tie with a leading run of value zero such
as `"0_model.pt"`). -/
theorem int_string_sort_contract :
    (∀ file_name, _int_string_sort file_name = specLeadingRank file_name)
    ∧ _int_string_sort "07_epoch.ckpt" = 7
    ∧ (∀ a b, matchDigitsPlus (basename a).data = none → 0 < _int_string_sort b →
        _int_string_sort a < _int_string_sort b) := by
  refine ⟨fun file_name => ?_, by decide, fun a b ha hb => ?_⟩
  · rw [int_string_sort_eq_mdpRun, mdpRun_eq_takeWhile, specLeadingRank]
  · have h0 : _int_string_sort a = 0 := by
      rw [int_string_sort_eq_mdpRun, mdpRun, ha]
      rfl
    rw [h0]
    exact hb

/-- Witness for C8 (amended) at concrete file names. -/
theorem int_string_sort_contract_witness :
    _int_string_sort "model.pt" < _int_string_sort "3_model.pt"
    ∧ _int_string_sort "07_epoch.ckpt" = 7 :=
  ⟨int_string_sort_contract.2.2 "model.pt" "3_model.pt" (by decide) (by decide),
   int_string_sort_contract.2.1⟩

/-- C8, counterexample to the claim as stated: `"0_model.pt"` has a leading
digit yet ranks `0`, equal to the rank of `"model.pt"` which has none, and in
the code's own descending selection `"model.pt"` sorts above `"0_model.pt"`
— so a file with no leading digit does not sort below every file with a
leading digit. -/
theorem int_string_sort_counterexample :
    matchDigitsPlus (basename "0_model.pt").data ≠ none
    ∧ _int_string_sort "0_model.pt" = 0
    ∧ _int_string_sort "model.pt" = 0
    ∧ selectedBasename ["model.pt", "0_model.pt"] none none = some "model.pt" := by
  exact ⟨by decide, by decide, by decide, by decide⟩

/-! ### Lemmas about the descending stable sort -/

/-- Inserting never yields the empty list. -/
theorem insortDesc_ne_nil (key : α → Nat) (x : α) (l : List α) :
    insortDesc key x l ≠ [] := by
  cases l with
  | nil => simp [insortDesc]
  | cons b bs =>
    rw [insortDesc]
    split <;> simp

/-- The sort is empty exactly on the empty input. -/
theorem pySortedDesc_eq_nil_iff (key : α → Nat) (l : List α) :
    pySortedDesc key l = [] ↔ l = [] := by
  cases l with
  | nil => simp [pySortedDesc]
  | cons x xs =>
    simp only [pySortedDesc]
    constructor
    · intro h
      exact absurd h (insortDesc_ne_nil key x (pySortedDesc key xs))
    · intro h
      exact nomatch h

/-- Head of the descending stable sort: it is the first element, in original
order, of the group of elements attaining the maximal key — every element
strictly before it has a strictly smaller key, and no element has a larger
key. -/
theorem head_pySortedDesc (key : α → Nat) (xs : List α) (h : xs ≠ []) :
    ∃ sel pre post, (pySortedDesc key xs).head? = some sel
      ∧ xs = pre ++ sel :: post
      ∧ (∀ c ∈ pre, key c < key sel)
      ∧ (∀ c ∈ xs, key c ≤ key sel) := by
  induction xs with
  | nil => exact absurd rfl h
  | cons x xs ih =>
    by_cases hxs : xs = []
    · subst hxs
      refine ⟨x, [], [], rfl, rfl, ?_, ?_⟩
      · intro c hc
        exact absurd hc (List.not_mem_nil c)
      · intro c hc
        rw [List.mem_singleton] at hc
        subst hc
        exact Nat.le_refl _
    · obtain ⟨sel, pre, post, hhead, hdecomp, hstrict, hmax⟩ := ih hxs
      cases hps : pySortedDesc key xs with
      | nil => exact absurd ((pySortedDesc_eq_nil_iff key xs).mp hps) hxs
      | cons b t =>
        rw [hps] at hhead
        have hb : b = sel := Option.some.inj hhead
        subst hb
        show ∃ sel' pre' post', (insortDesc key x (pySortedDesc key xs)).head? = some sel'
          ∧ x :: xs = pre' ++ sel' :: post'
          ∧ (∀ c ∈ pre', key c < key sel')
          ∧ (∀ c ∈ x :: xs, key c ≤ key sel')
        rw [hps, insortDesc]
        by_cases hle : key b ≤ key x
        · rw [if_pos hle]
          refine ⟨x, [], xs, rfl, rfl, ?_, ?_⟩
          · intro c hc
            exact absurd hc (List.not_mem_nil c)
          · intro c hc
            rcases List.mem_cons.mp hc with rfl | hc'
            · exact Nat.le_refl _
            · exact Nat.le_trans (hmax c hc') hle
        · rw [if_neg hle]
          refine ⟨b, x :: pre, post, rfl, by rw [List.cons_append, ← hdecomp],
            fun c hc => ?_, fun c hc => ?_⟩
          · rcases List.mem_cons.mp hc with rfl | hc'
            · exact Nat.lt_of_not_le hle
            · exact hstrict c hc'
          · rcases List.mem_cons.mp hc with rfl | hc'
            · exact Nat.le_of_lt (Nat.lt_of_not_le hle)
            · exact hmax c hc'

/-! ### Claims C1 and C6 -/

/-- C1: with a nonempty candidate set after the suffix and keyword filters,
the selected basename is a candidate of numerically greatest leading-integer
rank, and exactly that one file (the selected basename under the listing
path) is downloaded. -/
theorem s3_download_highest_numbered_file_selects_max (listing : List String)
    (file_type filter_keyword : Option String) (s3_dir_path : String)
    (h : hnCandidates listing file_type filter_keyword ≠ []) :
    ∃ sel, selectedBasename listing file_type filter_keyword = some sel
      ∧ sel ∈ hnCandidates listing file_type filter_keyword
      ∧ (∀ c ∈ hnCandidates listing file_type filter_keyword,
          _int_string_sort c ≤ _int_string_sort sel)
      ∧ s3_download_highest_numbered_file listing file_type filter_keyword s3_dir_path
          (fun _ => false) = some [joinSlash s3_dir_path sel] := by
  obtain ⟨sel, pre, post, hhead, hdecomp, hstrict, hmax⟩ :=
    head_pySortedDesc _int_string_sort (hnCandidates listing file_type filter_keyword) h
  have hlen : ¬ (hnCandidates listing file_type filter_keyword).length = 0 :=
    fun hl => h (List.length_eq_zero.mp hl)
  refine ⟨sel, hhead, ?_, hmax, ?_⟩
  · rw [hdecomp]
    exact List.mem_append_right _ (List.mem_cons_self _ _)
  · simp [s3_download_highest_numbered_file, s3_download_highest_numbered_file_requests,
      hlen, hhead, s3_download_files]

/-- Witness for C1: `["3_model.pt", "10_model.pt", "2_model.pt"]` selects and
downloads `"10_model.pt"`; `["model.pt"]` is selected with rank `0`. -/
theorem s3_download_highest_numbered_file_selects_max_witness :
    s3_download_highest_numbered_file ["3_model.pt", "10_model.pt", "2_model.pt"]
        none none "ckpt" (fun _ => false) = some [joinSlash "ckpt" "10_model.pt"]
    ∧ selectedBasename ["model.pt"] none none = some "model.pt"
    ∧ _int_string_sort "model.pt" = 0 := by
  obtain ⟨sel, hsel, hmem, hmax, hdl⟩ :=
    s3_download_highest_numbered_file_selects_max
      ["3_model.pt", "10_model.pt", "2_model.pt"] none none "ckpt" (by decide)
  have hv : selectedBasename ["3_model.pt", "10_model.pt", "2_model.pt"] none none
      = some "10_model.pt" := by decide
  rw [hv] at hsel
  have hs : sel = "10_model.pt" := (Option.some.inj hsel).symm
  subst hs
  exact ⟨hdl, by decide, by decide⟩

/-- C6, counterexample to the claim as stated: two candidates tie at the
greatest rank, and the code selects the first of the group in listing order,
not the last. -/
theorem tie_break_counterexample :
    _int_string_sort "1_a.pt" = _int_string_sort "1_b.pt"
    ∧ selectedBasename ["1_a.pt", "1_b.pt"] none none = some "1_a.pt"
    ∧ ("1_a.pt" : String) ≠ "1_b.pt" :=
  ⟨by decide, by decide, by decide⟩

/-- C6 (amended): on ties at the greatest leading-integer rank the selected
file is the first element, in original listing order, of that equal-rank
group: every candidate before it ranks strictly lower, and no candidate
ranks higher (deterministic for a fixed input order). -/
theorem tie_break_first_of_group (listing : List String)
    (file_type filter_keyword : Option String)
    (h : hnCandidates listing file_type filter_keyword ≠ []) :
    ∃ sel pre post, selectedBasename listing file_type filter_keyword = some sel
      ∧ hnCandidates listing file_type filter_keyword = pre ++ sel :: post
      ∧ (∀ c ∈ pre, _int_string_sort c < _int_string_sort sel)
      ∧ (∀ c ∈ hnCandidates listing file_type filter_keyword,
          _int_string_sort c ≤ _int_string_sort sel) :=
  head_pySortedDesc _int_string_sort (hnCandidates listing file_type filter_keyword) h

/-- Witness for C6 (amended) on a concrete tie. -/
theorem tie_break_first_of_group_witness :
    _int_string_sort "1_b.pt" ≤ _int_string_sort "1_a.pt"
    ∧ selectedBasename ["1_a.pt", "1_b.pt"] none none = some "1_a.pt" := by
  obtain ⟨sel, pre, post, hsel, hdecomp, hstrict, hmax⟩ :=
    tie_break_first_of_group ["1_a.pt", "1_b.pt"] none none (by decide)
  have hv : selectedBasename ["1_a.pt", "1_b.pt"] none none = some "1_a.pt" := by decide
  rw [hv] at hsel
  have hs : sel = "1_a.pt" := (Option.some.inj hsel).symm
  subst hs
  exact ⟨hmax "1_b.pt" (by decide), hv⟩

/-! ### Lemmas about basenames and rebuilt keys -/

/-- The basename accumulator never holds a slash. -/
theorem basenameChars_fold_no_slash (cs : List Char) :
    ∀ acc, '/' ∉ acc →
      '/' ∉ cs.foldl (fun acc c => if c = '/' then [] else acc.concat c) acc := by
  induction cs with
  | nil =>
    intro acc h
    simpa using h
  | cons c cs ih =>
    intro acc h
    rw [List.foldl_cons]
    by_cases hc : c = '/'
    · subst hc
      simp only [if_pos rfl]
      exact ih [] (List.not_mem_nil _)
    · simp only [if_neg hc]
      refine ih _ ?_
      intro hmem
      rw [List.concat_eq_append, List.mem_append] at hmem
      rcases hmem with h1 | h1
      · exact h h1
      · rw [List.mem_singleton] at h1
        exact hc h1.symm

/-- A basename contains no slash. -/
theorem basename_no_slash (s : String) : '/' ∉ (basename s).data :=
  basenameChars_fold_no_slash s.data [] (List.not_mem_nil _)

/-- A slash in the input resets the basename accumulator. -/
theorem basenameChars_fold_append_slash (l1 l2 acc : List Char) :
    (l1 ++ '/' :: l2).foldl (fun acc c => if c = '/' then [] else acc.concat c) acc
      = l2.foldl (fun acc c => if c = '/' then [] else acc.concat c) [] := by
  rw [List.foldl_append, List.foldl_cons]
  simp

/-- Without slashes the basename fold just appends. -/
theorem basenameChars_fold_no_slash_id (cs : List Char) :
    ∀ acc, '/' ∉ cs →
      cs.foldl (fun acc c => if c = '/' then [] else acc.concat c) acc = acc ++ cs := by
  induction cs with
  | nil =>
    intro acc h
    simp
  | cons c cs ih =>
    intro acc h
    have hc : ¬ c = '/' := fun he => h (he ▸ List.mem_cons_self _ _)
    rw [List.foldl_cons]
    simp only [if_neg hc]
    rw [ih _ (fun hm => h (List.mem_cons_of_mem _ hm))]
    simp [List.concat_eq_append]

/-- The basename of a rebuilt key `dir ++ "/" ++ b` is `b` again, when `b`
holds no slash. -/
theorem basename_joinSlash (a b : String) (hb : '/' ∉ b.data) :
    basename (joinSlash a b) = b := by
  have hdata : (joinSlash a b).data = a.data ++ '/' :: b.data := by
    show ((a ++ "/") ++ b).data = _
    rw [show ((a ++ "/") ++ b).data = (a.data ++ ['/']) ++ b.data from rfl,
      List.append_assoc]
    rfl
  show String.mk (basenameChars (joinSlash a b).data) = b
  rw [hdata, basenameChars, basenameChars_fold_append_slash,
    basenameChars_fold_no_slash_id b.data [] hb]
  rfl

/-- Every candidate basename is the basename of some string, hence holds no
slash. -/
theorem mem_hnCandidates_no_slash (listing : List String)
    (file_type filter_keyword : Option String) (b : String)
    (hb : b ∈ hnCandidates listing file_type filter_keyword) : '/' ∉ b.data := by
  have hex : ∃ o, basename o = b := by
    unfold hnCandidates at hb
    cases filter_keyword with
    | none =>
      obtain ⟨o, _, ho⟩ := List.mem_map.mp hb
      exact ⟨o, ho⟩
    | some kw =>
      obtain ⟨o, _, ho⟩ := List.mem_map.mp (List.mem_filter.mp hb).1
      exact ⟨o, ho⟩
  obtain ⟨o, ho⟩ := hex
  rw [← ho]
  exact basename_no_slash o

/-- C10: every key that `s3_download_highest_numbered_file` hands to the
download step is rebuilt as `s3_dir_path ++ "/" ++ b` from a selected
candidate basename `b` alone; consequently the downloaded key can only
coincide with a listed object key that lies directly one level under the
listing path — any listed key with intermediate path components differs from
the key passed to the download. -/
theorem s3_download_highest_numbered_file_rebuilds_key (listing : List String)
    (file_type filter_keyword : Option String) (s3_dir_path : String)
    (reqs : List String)
    (h : s3_download_highest_numbered_file_requests listing file_type filter_keyword
        s3_dir_path = some reqs) :
    ∀ r ∈ reqs, (∃ b ∈ hnCandidates listing file_type filter_keyword,
        r = joinSlash s3_dir_path b ∧ basename r = b)
      ∧ ∀ o : String, o = r → o = joinSlash s3_dir_path (basename o) := by
  intro r hr
  by_cases hlen : (hnCandidates listing file_type filter_keyword).length = 0
  · rw [s3_download_highest_numbered_file_requests] at h
    simp only [hlen, if_pos] at h
    rw [← Option.some.inj h] at hr
    exact absurd hr (List.not_mem_nil r)
  · have hne : hnCandidates listing file_type filter_keyword ≠ [] :=
      fun he => hlen (by rw [he]; rfl)
    obtain ⟨sel, pre, post, hhead, hdecomp, _, _⟩ :=
      head_pySortedDesc _int_string_sort (hnCandidates listing file_type filter_keyword)
        hne
    have hreq : reqs = [joinSlash s3_dir_path sel] := by
      rw [s3_download_highest_numbered_file_requests] at h
      simp only [hlen, if_neg, if_false] at h
      rw [hhead] at h
      exact (Option.some.inj h).symm
    have hselmem : sel ∈ hnCandidates listing file_type filter_keyword := by
      rw [hdecomp]
      exact List.mem_append_right _ (List.mem_cons_self _ _)
    have hnoslash : '/' ∉ sel.data :=
      mem_hnCandidates_no_slash listing file_type filter_keyword sel hselmem
    rw [hreq, List.mem_singleton] at hr
    subst hr
    have hbase : basename (joinSlash s3_dir_path sel) = sel :=
      basename_joinSlash s3_dir_path sel hnoslash
    refine ⟨⟨sel, hselmem, rfl, hbase⟩, ?_⟩
    intro o ho
    rw [ho, hbase]

/-- Witness for C10: a listed key with an intermediate component is rebuilt
to a different key, so the downloaded key is not the listed one. -/
theorem s3_download_highest_numbered_file_rebuilds_key_witness :
    s3_download_highest_numbered_file_requests ["p/sub/5_m.pt"] none none "p"
        = some ["p/5_m.pt"]
    ∧ ("p/sub/5_m.pt" : String) ≠ "p/5_m.pt" := by
  have hreq : s3_download_highest_numbered_file_requests ["p/sub/5_m.pt"] none none "p"
      = some ["p/5_m.pt"] := by decide
  refine ⟨hreq, fun he => ?_⟩
  have hform := (s3_download_highest_numbered_file_rebuilds_key ["p/sub/5_m.pt"]
      none none "p" ["p/5_m.pt"] hreq "p/5_m.pt" (List.mem_singleton.mpr rfl)).2
    "p/sub/5_m.pt" he
  exact absurd hform (by decide)


/-! ### Lemmas about the upload loop -/

/-- The loop body, with its let binding unfolded, as a plain case analysis on
the outcome of the existence check and the upload. -/
theorem uploadStep_eq (inj upErr : String → Option String)
    (s3_destination_object_dir : String) (n : Bool) (st : UploadState)
    (file_to_send : String) :
    uploadStep inj upErr s3_destination_object_dir n st file_to_send =
      match s3_file_exists (headFor inj st.store
          (joinSlash s3_destination_object_dir (basename file_to_send))) with
      | .error code => { st with errors := st.errors ++ [code] }
      | .ok true =>
        if n then { st with notices := st.notices ++ [s3_destination_object_dir] }
        else st
      | .ok false =>
        match upErr file_to_send with
        | some code => { st with errors := st.errors ++ [code] }
        | none => { st with
            store := st.store ++
              [joinSlash s3_destination_object_dir (basename file_to_send)],
            uploaded := st.uploaded ++
              [joinSlash s3_destination_object_dir (basename file_to_send)] } := rfl

/-- One loop iteration only ever grows the remote store. -/
theorem uploadStep_store_mono (inj upErr : String → Option String)
    (s3_destination_object_dir : String) (n : Bool) (st : UploadState)
    (file_to_send k : String) (hk : k ∈ st.store) :
    k ∈ (uploadStep inj upErr s3_destination_object_dir n st file_to_send).store := by
  rw [uploadStep_eq]
  cases hm : s3_file_exists (headFor inj st.store
      (joinSlash s3_destination_object_dir (basename file_to_send))) with
  | error code => exact hk
  | ok b =>
    cases b with
    | true =>
      by_cases hn : n = true
      · rw [if_pos hn]
        exact hk
      · rw [if_neg hn]
        exact hk
    | false =>
      cases hu : upErr file_to_send with
      | some code => exact hk
      | none => exact List.mem_append_left _ hk

/-- The whole loop only ever grows the remote store. -/
theorem s3_upload_files_store_mono (inj upErr : String → Option String)
    (s3_destination_object_dir : String) (n : Bool) (files_to_send : List String) :
    ∀ st k, k ∈ st.store →
      k ∈ (files_to_send.foldl (uploadStep inj upErr s3_destination_object_dir n)
        st).store := by
  induction files_to_send with
  | nil =>
    intro st k hk
    exact hk
  | cons f fs ih =>
    intro st k hk
    rw [List.foldl_cons]
    exact ih _ _ (uploadStep_store_mono _ _ _ _ _ _ _ hk)

/-- Fault-free loop iteration: skip (with an optional notice) when the
destination key is present, otherwise upload and record the key. -/
theorem uploadStep_noFault (s3_destination_object_dir : String) (n : Bool)
    (st : UploadState) (file_to_send : String) :
    uploadStep noFault noFault s3_destination_object_dir n st file_to_send =
      if joinSlash s3_destination_object_dir (basename file_to_send) ∈ st.store then
        (if n then { st with notices := st.notices ++ [s3_destination_object_dir] }
         else st)
      else { st with
        store := st.store ++ [joinSlash s3_destination_object_dir
          (basename file_to_send)],
        uploaded := st.uploaded ++ [joinSlash s3_destination_object_dir
          (basename file_to_send)] } := by
  rw [uploadStep_eq]
  by_cases h : joinSlash s3_destination_object_dir (basename file_to_send) ∈ st.store
  · rw [if_pos h]
    have hh : headFor noFault st.store
        (joinSlash s3_destination_object_dir (basename file_to_send)) = .success := by
      unfold headFor noFault
      rw [if_pos h]
    rw [hh]
    rfl
  · rw [if_neg h]
    have hh : headFor noFault st.store
        (joinSlash s3_destination_object_dir (basename file_to_send))
          = .clientError "404" := by
      unfold headFor noFault
      rw [if_neg h]
    rw [hh]
    rfl

/-- After a fault-free run, every processed file's destination key is in the
store. -/
theorem s3_upload_files_covers (s3_destination_object_dir : String) (n : Bool)
    (files_to_send : List String) :
    ∀ st f, f ∈ files_to_send →
      joinSlash s3_destination_object_dir (basename f) ∈
        (files_to_send.foldl (uploadStep noFault noFault s3_destination_object_dir n)
          st).store := by
  induction files_to_send with
  | nil =>
    intro st f hf
    exact absurd hf (List.not_mem_nil f)
  | cons g gs ih =>
    intro st f hf
    rw [List.foldl_cons]
    rcases List.mem_cons.mp hf with rfl | hf'
    · apply s3_upload_files_store_mono
      rw [uploadStep_noFault]
      by_cases h : joinSlash s3_destination_object_dir (basename f) ∈ st.store
      · rw [if_pos h]
        by_cases hn : n = true
        · rw [if_pos hn]
          exact h
        · rw [if_neg hn]
          exact h
      · rw [if_neg h]
        exact List.mem_append_right _ (List.mem_singleton.mpr rfl)
    · exact ih _ _ hf'

/-- A fault-free run whose files are all already covered by the store makes
no upload call. -/
theorem s3_upload_files_no_new_uploads (s3_destination_object_dir : String) (n : Bool)
    (files_to_send : List String) :
    ∀ st, (∀ f ∈ files_to_send,
        joinSlash s3_destination_object_dir (basename f) ∈ st.store) →
      (files_to_send.foldl (uploadStep noFault noFault s3_destination_object_dir n)
        st).uploaded = st.uploaded := by
  induction files_to_send with
  | nil =>
    intro st _
    rfl
  | cons g gs ih =>
    intro st h
    rw [List.foldl_cons, uploadStep_noFault,
      if_pos (h g (List.mem_cons_self _ _))]
    by_cases hn : n = true
    · rw [if_pos hn]
      exact ih _ (fun f hf => h f (List.mem_cons_of_mem _ hf))
    · rw [if_neg hn]
      exact ih _ (fun f hf => h f (List.mem_cons_of_mem _ hf))

/-- One loop iteration either leaves the upload log unchanged or appends the
destination key of the processed file. -/
theorem uploadStep_uploaded (inj upErr : String → Option String)
    (s3_destination_object_dir : String) (n : Bool) (st : UploadState)
    (file_to_send : String) :
    (uploadStep inj upErr s3_destination_object_dir n st file_to_send).uploaded
        = st.uploaded
    ∨ (uploadStep inj upErr s3_destination_object_dir n st file_to_send).uploaded
        = st.uploaded ++
            [joinSlash s3_destination_object_dir (basename file_to_send)] := by
  rw [uploadStep_eq]
  cases hm : s3_file_exists (headFor inj st.store
      (joinSlash s3_destination_object_dir (basename file_to_send))) with
  | error code => exact Or.inl rfl
  | ok b =>
    cases b with
    | true =>
      by_cases hn : n = true
      · rw [if_pos hn]
        exact Or.inl rfl
      · rw [if_neg hn]
        exact Or.inl rfl
    | false =>
      cases hu : upErr file_to_send with
      | some code => exact Or.inl rfl
      | none => exact Or.inr rfl

/-- Every key in the upload log of a run is the destination key of one of the
processed files. -/
theorem s3_upload_files_uploaded_are_keys (inj upErr : String → Option String)
    (s3_destination_object_dir : String) (n : Bool) (files_to_send : List String) :
    ∀ st k,
      k ∈ (files_to_send.foldl (uploadStep inj upErr s3_destination_object_dir n)
        st).uploaded →
      k ∈ st.uploaded ∨ ∃ f ∈ files_to_send,
        k = joinSlash s3_destination_object_dir (basename f) := by
  induction files_to_send with
  | nil =>
    intro st k hk
    exact Or.inl hk
  | cons g gs ih =>
    intro st k hk
    rw [List.foldl_cons] at hk
    rcases ih _ _ hk with hk' | ⟨f, hf, hkey⟩
    · rcases uploadStep_uploaded inj upErr s3_destination_object_dir n st g with
        heq | heq
      · rw [heq] at hk'
        exact Or.inl hk'
      · rw [heq, List.mem_append] at hk'
        rcases hk' with h1 | h1
        · exact Or.inl h1
        · exact Or.inr ⟨g, List.mem_cons_self _ _, List.mem_singleton.mp h1⟩
    · exact Or.inr ⟨f, List.mem_cons_of_mem _ hf, hkey⟩

/-- With the notify flag off, no loop iteration prints a notice. -/
theorem uploadStep_notices_false (inj upErr : String → Option String)
    (s3_destination_object_dir : String) (st : UploadState) (file_to_send : String) :
    (uploadStep inj upErr s3_destination_object_dir false st file_to_send).notices
      = st.notices := by
  rw [uploadStep_eq]
  cases hm : s3_file_exists (headFor inj st.store
      (joinSlash s3_destination_object_dir (basename file_to_send))) with
  | error code => rfl
  | ok b =>
    cases b with
    | true => rfl
    | false =>
      cases hu : upErr file_to_send with
      | some code => rfl
      | none => rfl

/-- With the notify flag off, a run prints no notice. -/
theorem s3_upload_files_notices_false (inj upErr : String → Option String)
    (s3_destination_object_dir : String) (files_to_send : List String) :
    ∀ st,
      (files_to_send.foldl (uploadStep inj upErr s3_destination_object_dir false)
        st).notices = st.notices := by
  induction files_to_send with
  | nil =>
    intro st
    rfl
  | cons g gs ih =>
    intro st
    rw [List.foldl_cons, ih, uploadStep_notices_false]

/-! ### Claims C3 and C9 -/

/-- C3: every uploaded key is `s3_destination_object_dir ++ "/" ++ basename(file)`;
after a fault-free run every processed file's destination key exists
remotely, so a second run against the same destination uploads nothing,
whatever either run's notify flag; existing keys are skipped (first run from
a store already holding a key never uploads it again — subsumed by the
second-run statement); with the notify flag off no notice is printed. -/
theorem s3_upload_files_idempotent (store : List String)
    (files_to_send : List String) (s3_destination_object_dir : String)
    (n1 n2 : Bool) :
    (s3_upload_files noFault noFault
        (s3_upload_files noFault noFault store files_to_send
          s3_destination_object_dir n1).store
        files_to_send s3_destination_object_dir n2).uploaded = []
    ∧ (∀ k ∈ (s3_upload_files noFault noFault store files_to_send
          s3_destination_object_dir n1).uploaded,
        ∃ f ∈ files_to_send, k = joinSlash s3_destination_object_dir (basename f))
    ∧ (∀ f ∈ files_to_send, joinSlash s3_destination_object_dir (basename f) ∈
        (s3_upload_files noFault noFault store files_to_send
          s3_destination_object_dir n1).store)
    ∧ (s3_upload_files noFault noFault store files_to_send
        s3_destination_object_dir false).notices = [] := by
  refine ⟨?_, ?_, ?_, ?_⟩
  · exact s3_upload_files_no_new_uploads s3_destination_object_dir n2 files_to_send
      ⟨(s3_upload_files noFault noFault store files_to_send
          s3_destination_object_dir n1).store, [], [], []⟩
      (fun f hf => s3_upload_files_covers s3_destination_object_dir n1 files_to_send
        ⟨store, [], [], []⟩ f hf)
  · intro k hk
    rcases s3_upload_files_uploaded_are_keys noFault noFault s3_destination_object_dir
        n1 files_to_send ⟨store, [], [], []⟩ k hk with h1 | h1
    · exact absurd h1 (List.not_mem_nil k)
    · exact h1
  · intro f hf
    exact s3_upload_files_covers s3_destination_object_dir n1 files_to_send
      ⟨store, [], [], []⟩ f hf
  · exact s3_upload_files_notices_false noFault noFault s3_destination_object_dir
      files_to_send ⟨store, [], [], []⟩

/-- Witness for C3: one file, empty store; the first run uploads it and the
second run (with the notify flag on) uploads nothing. -/
theorem s3_upload_files_idempotent_witness :
    s3_upload_files noFault noFault [] ["x/f.txt"] "d" false
      = ⟨["d/f.txt"], ["d/f.txt"], [], []⟩
    ∧ (s3_upload_files noFault noFault
        (s3_upload_files noFault noFault [] ["x/f.txt"] "d" false).store
        ["x/f.txt"] "d" true).uploaded = [] :=
  ⟨by decide, (s3_upload_files_idempotent [] ["x/f.txt"] "d" false true).1⟩

/-- C9: the existence check of the upload loop runs inside the per-item
`try/except`, so a client error with a non-`"404"` code raised by it for one
file is printed and swallowed: the run is the run of the remaining files
from the state with only that error code appended — the file is skipped and
nothing propagates — even though `s3_file_exists` alone re-raises exactly
that error. -/
theorem s3_upload_files_check_error_continues (inj upErr : String → Option String)
    (store : List String) (pre post : List String) (f : String)
    (s3_destination_object_dir : String) (n : Bool) (code : String)
    (hinj : inj (joinSlash s3_destination_object_dir (basename f)) = some code)
    (hcode : code ≠ "404") :
    (s3_upload_files inj upErr store (pre ++ f :: post) s3_destination_object_dir n =
      List.foldl (uploadStep inj upErr s3_destination_object_dir n)
        { List.foldl (uploadStep inj upErr s3_destination_object_dir n)
            ⟨store, [], [], []⟩ pre with
          errors := (List.foldl (uploadStep inj upErr s3_destination_object_dir n)
            ⟨store, [], [], []⟩ pre).errors ++ [code] } post)
    ∧ s3_file_exists (.clientError code) = .error code := by
  constructor
  · unfold s3_upload_files
    rw [List.foldl_append, List.foldl_cons]
    congr 1
    rw [uploadStep_eq]
    have hh : headFor inj
        (List.foldl (uploadStep inj upErr s3_destination_object_dir n)
          ⟨store, [], [], []⟩ pre).store
        (joinSlash s3_destination_object_dir (basename f)) = .clientError code := by
      unfold headFor
      rw [hinj]
    rw [hh]
    simp [s3_file_exists, hcode]
  · simp [s3_file_exists, hcode]

/-- Witness for C9: a store fault of code `"403"` on the single file's check
is recorded and the run returns normally with no upload. -/
theorem s3_upload_files_check_error_continues_witness :
    s3_upload_files inj403 noFault [] ["f.txt"] "d" false
      = ⟨[], [], [], ["403"]⟩ :=
  (s3_upload_files_check_error_continues inj403 noFault [] [] [] "f.txt" "d"
    false "403" rfl (by decide)).1
